import Mathlib

/-!
Shallow embedding of the OpenAlpha backtesting core
(`src/openalpha/backtest.py` and `src/src/strategies.py`).

Conventions of the embedding:
* A daily price history is represented by its list of `close` prices
  (`List ℚ`); the shipped strategies and the engine read only `close`.
* Float `NaN` (pandas "missing") is represented by `none` in `Option ℚ`;
  a defined float value is `some q`.  All float arithmetic is modelled by
  exact rational arithmetic.
* A pandas `Series` over the history's date index is a `List` of the same
  length; positional index `t` stands for the `t`-th date.
* Vectorized pandas expressions are transcribed pointwise over
  `List.range n` where `n` is the history length.
-/

namespace OpenAlpha

/-- Element read `l[t]` of a series, as a total function (all reads the
    engine performs are in range; out-of-range reads return the default). -/
def idx (l : List ℚ) (t : Nat) : ℚ := l.getD t 0

/-- Element read for integer-valued series (signals, positions). -/
def idxI (l : List Int) (t : Nat) : Int := l.getD t 0

/-! ### Signal generation (`src/src/strategies.py`) -/

/-- Rolling mean of window `w` ending at index `t`
    (`data['close'].rolling(window=w).mean()` at row `t`,
    lines 41-42 of `strategies.py`): `none` (NaN) until `w` observations
    are available, otherwise the mean of `close[t-w+1..t]`. -/
def rollingMean (w : Nat) (close : List ℚ) (t : Nat) : Option ℚ :=
  if t + 1 < w then none
  else some ((((List.range w).map (fun i => idx close (t - i))).sum) / (w : ℚ))

/-- Pandas comparison `a < b` on possibly-missing values: any comparison
    with NaN is `False`. -/
def oltB (a b : Option ℚ) : Bool :=
  match a, b with
  | some x, some y => decide (x < y)
  | _, _ => false

/-- Pandas comparison `a <= b` on possibly-missing values: any comparison
    with NaN is `False`. -/
def oleB (a b : Option ℚ) : Bool :=
  match a, b with
  | some x, some y => decide (x ≤ y)
  | _, _ => false

/-- `SMAStrategy.generate_signals` (lines 38-53 of `strategies.py`):
    +1 when the fast mean crosses above the slow mean, -1 on the reverse
    crossing, 0 otherwise.  `shift(1)` at row 0 is NaN, and NaN
    comparisons are `False`.  The -1 mask is assigned last (the two masks
    are disjoint since `fast > slow` and `fast < slow` exclude each other). -/
def smaSignals (fast_window slow_window : Nat) (close : List ℚ) : List Int :=
  (List.range close.length).map (fun t =>
    let fm := rollingMean fast_window close t
    let sm := rollingMean slow_window close t
    let fmPrev := if t = 0 then none else rollingMean fast_window close (t - 1)
    let smPrev := if t = 0 then none else rollingMean slow_window close (t - 1)
    if oltB fm sm && oleB smPrev fmPrev then -1
    else if oltB sm fm && oleB fmPrev smPrev then 1
    else 0)

/-- `MomentumStrategy.generate_signals` (lines 64-79 of `strategies.py`):
    momentum is `close.pct_change(periods=lookback)`, NaN for the first
    `lookback` rows; +1 when momentum > threshold, -1 when
    momentum < -threshold, else 0 (NaN compares `False`, hence 0). -/
def momentumSignals (lookback_period : Nat) (threshold : ℚ) (close : List ℚ) : List Int :=
  (List.range close.length).map (fun t =>
    if t < lookback_period then 0
    else
      let m := idx close t / idx close (t - lookback_period) - 1
      if threshold < m then 1
      else if m < -threshold then -1
      else 0)

/-- `BuyAndHoldStrategy.generate_signals` (lines 82-86 of `strategies.py`):
    a series of zeros with `signals.iloc[0] = 1`. -/
def buyHoldSignals (close : List ℚ) : List Int :=
  (List.range close.length).map (fun t => if t = 0 then 1 else 0)

/-- The closed strategy registry (`STRATEGIES` in `strategies.py`):
    `sma`, `momentum`, `buy_hold`. -/
inductive Strategy
  | sma (fast_window slow_window : Nat)
  | momentum (lookback_period : Nat) (threshold : ℚ)
  | buy_hold
deriving DecidableEq

/-- Dispatch of `strategy.generate_signals(data)` over the registry. -/
def generate_signals : Strategy → List ℚ → List Int
  | Strategy.sma f s, close => smaSignals f s close
  | Strategy.momentum lb th, close => momentumSignals lb th close
  | Strategy.buy_hold, close => buyHoldSignals close

/-- Parameter validity: pandas `rolling(window=w)` requires `w ≥ 1`
    (the SMA windows); the other variants accept all parameters. -/
def stratValid : Strategy → Prop
  | Strategy.sma f s => 1 ≤ f ∧ 1 ≤ s
  | Strategy.momentum _ _ => True
  | Strategy.buy_hold => True

/-! ### Position construction and simulation (`backtest.py`, `run_backtest`) -/

/-- Forward-fill scan underlying
    `signals.replace(0, np.nan).fillna(method='ffill').fillna(0)`
    (line 41 of `backtest.py`): `carry` is the last non-zero signal seen
    so far (0 before any). -/
def ffill : List Int → Int → List Int
  | [], _ => []
  | a :: r, carry =>
      let c := if a = 0 then carry else a
      c :: ffill r c

/-- Position sequence derived from the signal sequence (line 41 of
    `backtest.py`): last non-zero signal carried forward, 0 before the
    first non-zero signal. -/
def positionsOf (signals : List Int) : List Int := ffill signals 0

/-- Net strategy return series (lines 44-50 of `backtest.py`):
    `returns = close.pct_change()`;
    `strategy_returns = positions.shift(1) * returns * position_size`;
    `commission_costs = positions.diff().abs() * commission`;
    `strategy_returns - commission_costs`.
    At row 0 every term is NaN, so the net return is NaN (`none`);
    at row `t ≥ 1` it is
    `pos[t-1] * (close[t]/close[t-1] - 1) * position_size
      - |pos[t] - pos[t-1]| * commission`. -/
def netReturns (close : List ℚ) (signals : List Int) (position_size commission : ℚ) :
    List (Option ℚ) :=
  let pos := positionsOf signals
  (List.range close.length).map (fun t =>
    if t = 0 then none
    else some ((idxI pos (t - 1) : ℚ) * (idx close t / idx close (t - 1) - 1) * position_size
      - |(idxI pos t : ℚ) - (idxI pos (t - 1) : ℚ)| * commission))

/-- Pandas `cumprod()` with its default `skipna=True`: NaN entries stay
    NaN in the output and do not interrupt the running product. -/
def cumprodAux : List (Option ℚ) → ℚ → List (Option ℚ)
  | [], _ => []
  | none :: r, acc => none :: cumprodAux r acc
  | some x :: r, acc => some (acc * x) :: cumprodAux r (acc * x)

/-- Equity curve `(1 + strategy_returns).cumprod() * initial_capital`
    (line 53 of `backtest.py`). -/
def equityCurve (net : List (Option ℚ)) (initial_capital : ℚ) : List (Option ℚ) :=
  (cumprodAux (net.map (Option.map (fun x => 1 + x))) 1).map
    (Option.map (fun x => x * initial_capital))

/-- One row of the trade log `trades_df` (lines 56-62 of `backtest.py`):
    date (by index), signal, close price at that date, and the position at
    that date. -/
structure TradeEntry where
  date : Nat
  signal : Int
  price : ℚ
  position : Int
deriving DecidableEq

/-- Trade log extraction (lines 56-62 of `backtest.py`): the rows of the
    signal series with a non-zero value, paired with that date's close and
    resulting position. -/
def tradeLog (close : List ℚ) (signals : List Int) : List TradeEntry :=
  ((List.range signals.length).filter (fun t => decide (idxI signals t ≠ 0))).map
    (fun t => { date := t, signal := idxI signals t, price := idx close t,
                position := idxI (positionsOf signals) t })

/-! ### Metrics reduction (`backtest.py`, `_calculate_metrics`, lines 78-117)

Real-valued quantities that floats can compute but rationals cannot
(square roots, real powers) live in `ℝ`; a float NaN is again `none`.
Python's `round(x, 2)` rounds half to even. -/

/-- Round half to even, the tie-breaking rule of Python's `round`. -/
def roundHalfEvenQ (x : ℚ) : ℤ :=
  if x - ⌊x⌋ < 1/2 then ⌊x⌋
  else if (1 : ℚ)/2 < x - ⌊x⌋ then ⌊x⌋ + 1
  else if ⌊x⌋ % 2 = 0 then ⌊x⌋ else ⌊x⌋ + 1

/-- Python `round(x, 2)` on an exact rational. -/
def round2Q (x : ℚ) : ℚ := (roundHalfEvenQ (x * 100) : ℚ) / 100

/-- Round half to even on a real value. -/
noncomputable def roundHalfEvenR (x : ℝ) : ℤ :=
  if x - ⌊x⌋ < 1/2 then ⌊x⌋
  else if (1 : ℝ)/2 < x - ⌊x⌋ then ⌊x⌋ + 1
  else if ⌊x⌋ % 2 = 0 then ⌊x⌋ else ⌊x⌋ + 1

/-- Python `round(x, 2)` on a real value. -/
noncomputable def round2R (x : ℝ) : ℝ := (roundHalfEvenR (x * 100) : ℝ) / 100

/-- `total_return = equity_curve.iloc[-1] / initial_capital - 1`
    (line 93): NaN-propagating through the last equity entry. -/
def total_return_raw (equity : List (Option ℚ)) (initial_capital : ℚ) : Option ℚ :=
  (equity.getLastD none).map (fun e => e / initial_capital - 1)

/-- Numpy float power `b ** e`: real power for a non-negative base,
    integer power for a negative base with an integral exponent, NaN
    (`none`) for a negative base with a fractional exponent. -/
noncomputable def powFloat (b : ℚ) (e : ℚ) : Option ℝ :=
  if 0 ≤ b then some ((b : ℝ) ^ (e : ℝ))
  else if e.den = 1 then some ((b : ℝ) ^ e.num)
  else none

/-- `annual_return = (1 + total_return) ** (252 / len(returns_clean)) - 1`
    (line 94), with `n` the count of valid return observations. -/
noncomputable def annual_return_raw (total : Option ℚ) (n : ℕ) : Option ℝ :=
  total.bind (fun tot => (powFloat (1 + tot) ((252 : ℚ) / (n : ℚ))).map (fun y => y - 1))

/-- Sample variance with `ddof=1` underlying `Series.std()`: NaN for
    fewer than two observations. -/
def sampleVar (l : List ℚ) : Option ℚ :=
  if l.length ≤ 1 then none
  else
    let m := l.sum / (l.length : ℚ)
    some ((l.map (fun x => (x - m) ^ 2)).sum / ((l.length : ℚ) - 1))

/-- `volatility = returns_clean.std() * np.sqrt(252)` (line 95). -/
noncomputable def volatility_raw (returns_clean : List ℚ) : Option ℝ :=
  (sampleVar returns_clean).map (fun v => Real.sqrt (v : ℝ) * Real.sqrt 252)

/-- `sharpe_ratio = annual_return / volatility if volatility > 0 else 0.0`
    (line 98): a NaN volatility fails the `> 0` test, so the guard yields
    0; a NaN annual return propagates through the division. -/
noncomputable def sharpe_raw (annual vol : Option ℝ) : Option ℝ :=
  match vol with
  | some v => if 0 < v then annual.map (fun a => a / v) else some 0
  | none => some 0

/-- `equity_curve.expanding().max()` (line 101): running maximum of the
    defined values; NaN only while no defined value has been seen. -/
def expandingMax : List (Option ℚ) → Option ℚ → List (Option ℚ)
  | [], _ => []
  | none :: r, acc => acc :: expandingMax r acc
  | some x :: r, acc =>
      let m : ℚ := match acc with | none => x | some p => max p x
      some m :: expandingMax r (some m)

/-- `drawdown = (equity_curve - peak) / peak` (line 102),
    NaN-propagating elementwise. -/
def drawdowns (equity : List (Option ℚ)) : List (Option ℚ) :=
  List.zipWith (fun e p =>
    match e, p with
    | some ev, some pv => some ((ev - pv) / pv)
    | _, _ => none) equity (expandingMax equity none)

/-- `Series.min()` with its default `skipna=True`: minimum of the defined
    values, NaN if there are none. -/
def nanMin (l : List (Option ℚ)) : Option ℚ :=
  l.foldl (fun acc x =>
    match acc, x with
    | none, v => v
    | some a, none => some a
    | some a, some b => some (min a b)) none

/-- `max_drawdown = drawdown.min()` (line 103), before the percentage
    scaling applied in the returned record. -/
def max_drawdown_raw (equity : List (Option ℚ)) : Option ℚ := nanMin (drawdowns equity)

/-- `num_trades = (returns_clean != 0).sum()` (lines 106, 116). -/
def num_trades_of (returns_clean : List ℚ) : ℕ :=
  (returns_clean.filter (fun x => decide (x ≠ 0))).length

/-- `win_rate = winning_trades / total_trades if total_trades > 0 else 0.0`
    (lines 105-107). -/
def win_rate_raw (returns_clean : List ℚ) : ℚ :=
  let wins := (returns_clean.filter (fun x => decide (0 < x))).length
  if 0 < num_trades_of returns_clean then (wins : ℚ) / (num_trades_of returns_clean : ℚ)
  else 0

/-- The fixed-shape metrics record returned by `_calculate_metrics`
    (`sharpe` is the `sharpe_ratio` key). -/
structure Metrics where
  total_return : Option ℚ
  annual_return : Option ℝ
  volatility : Option ℝ
  sharpe : Option ℝ
  max_drawdown : Option ℚ
  win_rate : ℚ
  num_trades : ℕ

/-- The all-zero record returned when the cleaned return series is empty
    (lines 81-89). -/
noncomputable def zeroMetrics : Metrics :=
  { total_return := some 0, annual_return := some 0, volatility := some 0,
    sharpe := some 0, max_drawdown := some 0, win_rate := 0, num_trades := 0 }

/-- `Backtester._calculate_metrics(returns, equity_curve)`
    (lines 78-117): drop NaN returns; the degenerate empty case yields the
    all-zero record; otherwise compute each metric and return it scaled to
    percent and rounded to two decimals (the sharpe ratio is rounded
    without scaling, `num_trades` is returned as an integer count). -/
noncomputable def calculateMetrics (returns : List (Option ℚ)) (equity : List (Option ℚ))
    (initial_capital : ℚ) : Metrics :=
  let returns_clean := returns.filterMap id
  if returns_clean = [] then zeroMetrics
  else
    let total := total_return_raw equity initial_capital
    let annual := annual_return_raw total returns_clean.length
    let vol := volatility_raw returns_clean
    { total_return := total.map (fun x => round2Q (x * 100))
      annual_return := annual.map (fun x => round2R (x * 100))
      volatility := vol.map (fun x => round2R (x * 100))
      sharpe := (sharpe_raw annual vol).map round2R
      max_drawdown := (max_drawdown_raw equity).map (fun x => round2Q (x * 100))
      win_rate := round2Q (win_rate_raw returns_clean * 100)
      num_trades := num_trades_of returns_clean }

/-- The record produced by one backtest (`BacktestResults`,
    lines 7-13 of `backtest.py`). -/
structure BacktestResults where
  returns : List (Option ℚ)
  positions : List Int
  trades : List TradeEntry
  metrics : Metrics
  equity_curve : List (Option ℚ)

/-- `Backtester(initial_capital, commission).run_backtest(data, strategy,
    position_size)` (lines 23-72 of `backtest.py`). -/
noncomputable def run_backtest (initial_capital commission : ℚ) (close : List ℚ)
    (strat : Strategy) (position_size : ℚ) : BacktestResults :=
  let signals := generate_signals strat close
  let net := netReturns close signals position_size commission
  let equity := equityCurve net initial_capital
  { returns := net
    positions := positionsOf signals
    trades := tradeLog close signals
    metrics := calculateMetrics net equity initial_capital
    equity_curve := equity }

/-- Pointwise comparison used in the commission-monotonicity analysis:
    both entries missing, or both defined and ordered with the smaller one
    non-negative. -/
def leDefined (a b : Option ℚ) : Prop :=
  (a = none ∧ b = none) ∨ ∃ x y, a = some x ∧ b = some y ∧ 0 ≤ x ∧ x ≤ y

/-! ### Specification-side definitions and concrete fixtures -/

/-- Modelled from the spec (section 4.2): the position at date `t` is the
    most recent non-zero signal at or before `t`, and 0 if no non-zero
    signal has occurred yet.  Stated independently of the engine's
    forward-fill scan, for comparison with `positionsOf`. -/
def specLastNonZero (s : List Int) (t : Nat) : Int :=
  ((s.take (t + 1)).filter (fun x => decide (x ≠ 0))).getLastD 0

/-- Close prices of the spec's concrete buy-and-hold scenario. -/
def scenarioClose : List ℚ := [100, 102, 101, 105, 110]

/-- Net return series of the concrete scenario
    (buy-and-hold, `position_size = 1`, `commission = 0`). -/
def scenarioNet : List (Option ℚ) :=
  netReturns scenarioClose (generate_signals Strategy.buy_hold scenarioClose) 1 0

/-- Equity curve of the concrete scenario (`initial_capital = 1000`). -/
def scenarioEquity : List (Option ℚ) := equityCurve scenarioNet 1000

/-- Metrics record of the concrete scenario. -/
noncomputable def scenarioMetrics : Metrics := calculateMetrics scenarioNet scenarioEquity 1000

end OpenAlpha

/-! ### Helper lemmas -/

namespace OpenAlpha

lemma ffill_cons (a : Int) (r : List Int) (c : Int) :
    ffill (a :: r) c = (if a = 0 then c else a) :: ffill r (if a = 0 then c else a) := rfl

lemma ffill_length : ∀ (s : List Int) (c : Int), (ffill s c).length = s.length
  | [], _ => rfl
  | a :: r, c => by rw [ffill_cons]; simp [ffill_length r]

lemma positionsOf_length (s : List Int) : (positionsOf s).length = s.length :=
  ffill_length s 0

lemma ffill_getD : ∀ (s : List Int) (c : Int) (t : Nat), t < s.length →
    (ffill s c).getD t 0 = ((s.take (t + 1)).filter (fun x => decide (x ≠ 0))).getLastD c
  | [], _, t, ht => absurd ht (by simp)
  | a :: r, c, 0, _ => by
      rw [ffill_cons]
      by_cases ha : a = 0 <;> simp [ha]
  | a :: r, c, t + 1, ht => by
      have hlt : t < r.length := by simpa using ht
      rw [ffill_cons, List.getD_cons_succ, List.take_succ_cons]
      by_cases ha : a = 0
      · subst ha
        rw [if_pos rfl, List.filter_cons_of_neg (by simp)]
        exact ffill_getD r c t hlt
      · rw [if_neg ha, List.filter_cons_of_pos (by simp [ha]), List.getLastD_cons]
        exact ffill_getD r a t hlt

lemma positionsOf_getD (s : List Int) (t : Nat) (ht : t < s.length) :
    (positionsOf s).getD t 0 = specLastNonZero s t :=
  ffill_getD s 0 t ht

lemma cumprodAux_length : ∀ (l : List (Option ℚ)) (a : ℚ), (cumprodAux l a).length = l.length
  | [], _ => rfl
  | none :: r, a => by simp [cumprodAux, cumprodAux_length r]
  | some x :: r, a => by simp [cumprodAux, cumprodAux_length r]

lemma netReturns_length (close : List ℚ) (s : List Int) (ps cm : ℚ) :
    (netReturns close s ps cm).length = close.length := by
  simp [netReturns]

lemma equityCurve_length (net : List (Option ℚ)) (ic : ℚ) :
    (equityCurve net ic).length = net.length := by
  simp [equityCurve, cumprodAux_length]

end OpenAlpha

namespace OpenAlpha

/-- C1: the equity curve always has the same length (index) as the price
    history, but its first entry is the missing value NaN, not
    `initialCapital`: the first strategy return is NaN and
    `(1 + returns).cumprod()` keeps that row NaN.  Concretely, for the
    two-day history `[100, 102]` under buy-and-hold with
    `initial_capital = 1000` the curve is `[NaN, 1020]`. -/
theorem equity_first_entry_nan :
    (∀ (close : List ℚ) (signals : List Int) (ps cm ic : ℚ),
      (equityCurve (netReturns close signals ps cm) ic).length = close.length)
    ∧ equityCurve (netReturns [100, 102]
        (generate_signals Strategy.buy_hold [100, 102]) 1 (1/1000)) 1000
      = [none, some 1020] := by
  constructor
  · intro close signals ps cm ic
    rw [equityCurve_length, netReturns_length]
  · norm_num [equityCurve, netReturns, generate_signals, buyHoldSignals, positionsOf,
      ffill, cumprodAux, idx, idxI, List.range_succ]

/-- C3: position construction is last-observation-carried-forward: the
    position at each date equals the most recent non-zero signal at or
    before that date (0 before any), and the spec's example
    `[0,1,0,0,-1,0] ↦ [0,1,1,1,-1,-1]` holds. -/
theorem positions_locf :
    (∀ (s : List Int) (t : Nat), t < s.length →
      (positionsOf s).getD t 0 = specLastNonZero s t)
    ∧ positionsOf [0, 1, 0, 0, -1, 0] = [0, 1, 1, 1, -1, -1] :=
  ⟨positionsOf_getD, by decide⟩

/-- Witness for C3 at the spec's own example, date 4. -/
theorem positions_locf_witness :
    4 < ([0, 1, 0, 0, -1, 0] : List Int).length ∧
    (positionsOf [0, 1, 0, 0, -1, 0]).getD 4 0 = specLastNonZero [0, 1, 0, 0, -1, 0] 4 :=
  ⟨by decide, positions_locf.1 [0, 1, 0, 0, -1, 0] 4 (by decide)⟩

end OpenAlpha

namespace OpenAlpha

lemma getLastD_mem_or (l : List Int) (d : Int) : l.getLastD d = d ∨ l.getLastD d ∈ l := by
  induction l generalizing d with
  | nil => left; rfl
  | cons a r ih =>
    rw [List.getLastD_cons]
    rcases ih a with h | h
    · right; rw [h]; exact List.mem_cons_self a r
    · right; exact List.mem_cons_of_mem a h

lemma filter_take_succ_getLastD (s : List Int) (t : Nat) (ht : t < s.length)
    (hnz : idxI s t ≠ 0) (c : Int) :
    ((s.take (t + 1)).filter (fun x => decide (x ≠ 0))).getLastD c = idxI s t := by
  have hsome : s[t]? = some s[t] := List.getElem?_eq_getElem ht
  have hgd : idxI s t = s[t] := by
    rw [idxI, List.getD_eq_getElem?_getD, hsome, Option.getD_some]
  rw [List.take_succ, hsome, Option.toList_some, List.filter_append,
    List.filter_cons_of_pos (by simp [← hgd, hnz]), List.filter_nil,
    List.getLastD_concat, hgd]

lemma positions_eq_signal_of_ne_zero (signals : List Int) (t : Nat)
    (ht : t < signals.length) (hnz : idxI signals t ≠ 0) :
    (positionsOf signals).getD t 0 = idxI signals t := by
  rw [positionsOf_getD signals t ht, specLastNonZero]
  exact filter_take_succ_getLastD signals t ht hnz 0

lemma scenarioNet_eval :
    scenarioNet = [none, some (1/50), some (-1/102), some (4/101), some (1/21)] := by
  norm_num [scenarioNet, scenarioClose, netReturns, generate_signals, buyHoldSignals,
    positionsOf, ffill, idx, idxI, List.range_succ]

lemma scenarioEquity_eval :
    scenarioEquity = [none, some 1020, some 1010, some 1050, some 1100] := by
  rw [scenarioEquity, scenarioNet_eval]
  norm_num [equityCurve, cumprodAux]

end OpenAlpha

namespace OpenAlpha

/-- C4 (counterexample): in the spec's concrete buy-and-hold scenario the
    `num_trades` metric is not 1: the code counts the non-zero net-return
    periods, of which there are 4. -/
theorem scenario_num_trades_ne_one : scenarioMetrics.num_trades ≠ 1 := by
  rw [scenarioMetrics, scenarioNet_eval, scenarioEquity_eval]
  norm_num [calculateMetrics, List.filterMap]
  rw [if_neg (List.cons_ne_nil _ _)]
  norm_num [num_trades_of]

/-- C4 (amended): the concrete scenario `close = [100,102,101,105,110]`,
    buy-and-hold, `initialCapital = 1000`, `commission = 0`,
    `positionSize = 1`: signals `[1,0,0,0,0]`, positions `[1,1,1,1,1]`,
    net returns `[NaN, 1/50, -1/102, 4/101, 1/21]` (the decimal prefixes
    0.02, -0.0098, 0.0396, 0.0476 of the spec), final equity exactly 1100,
    `totalReturn` metric 10.0 (percent), and `numTrades = 4` (count of
    non-zero return periods), not 1. -/
theorem scenario_buy_and_hold :
    generate_signals Strategy.buy_hold scenarioClose = [1, 0, 0, 0, 0]
    ∧ positionsOf (generate_signals Strategy.buy_hold scenarioClose) = [1, 1, 1, 1, 1]
    ∧ scenarioNet = [none, some (1/50), some (-1/102), some (4/101), some (1/21)]
    ∧ scenarioEquity.getLastD none = some 1100
    ∧ scenarioMetrics.total_return = some 10
    ∧ scenarioMetrics.num_trades = 4 := by
  have hsig : generate_signals Strategy.buy_hold scenarioClose = [1, 0, 0, 0, 0] := by
    norm_num [generate_signals, buyHoldSignals, scenarioClose, List.range_succ]
  refine ⟨hsig, ?_, scenarioNet_eval, ?_, ?_, ?_⟩
  · rw [hsig]; decide
  · rw [scenarioEquity_eval]; rfl
  · rw [scenarioMetrics, scenarioNet_eval, scenarioEquity_eval]
    norm_num [calculateMetrics, List.filterMap]
    rw [if_neg (List.cons_ne_nil _ _)]
    norm_num [total_return_raw, round2Q, roundHalfEvenQ]
  · rw [scenarioMetrics, scenarioNet_eval, scenarioEquity_eval]
    norm_num [calculateMetrics, List.filterMap]
    rw [if_neg (List.cons_ne_nil _ _)]
    norm_num [num_trades_of]

end OpenAlpha

namespace OpenAlpha

/-- C9 (counterexample): `computeMetrics` does not return `totalReturn` at
    full precision: in the concrete scenario the raw ratio
    `equity[last]/initialCapital - 1` is `1/10`, while the returned
    `total_return` is the percentage-scaled `10`. -/
theorem total_return_scaled_counterexample :
    scenarioMetrics.total_return = some 10
    ∧ total_return_raw scenarioEquity 1000 = some (1/10)
    ∧ (some (10 : ℚ)) ≠ (some ((1 : ℚ)/10)) := by
  refine ⟨?_, ?_, by norm_num⟩
  · rw [scenarioMetrics, scenarioNet_eval, scenarioEquity_eval]
    norm_num [calculateMetrics, List.filterMap]
    rw [if_neg (List.cons_ne_nil _ _)]
    norm_num [total_return_raw, round2Q, roundHalfEvenQ]
  · rw [scenarioEquity_eval]
    norm_num [total_return_raw]

/-- C9 (amended): percentage scaling and two-decimal rounding happen
    inside `_calculate_metrics` itself, not in the presentation layers:
    whenever the cleaned return series is non-empty the returned record
    holds `round2(100 * raw)` for the percentage metrics, not the raw
    full-precision values. -/
theorem metrics_rounded_in_core (returns equity : List (Option ℚ)) (ic : ℚ)
    (h : returns.filterMap id ≠ []) :
    (calculateMetrics returns equity ic).total_return
      = (total_return_raw equity ic).map (fun x => round2Q (x * 100))
    ∧ (calculateMetrics returns equity ic).max_drawdown
      = (max_drawdown_raw equity).map (fun x => round2Q (x * 100))
    ∧ (calculateMetrics returns equity ic).win_rate
      = round2Q (win_rate_raw (returns.filterMap id) * 100) := by
  simp only [calculateMetrics]
  rw [if_neg h]
  exact ⟨rfl, rfl, rfl⟩

/-- Witness for C9's amended statement at a concrete two-day backtest. -/
theorem metrics_rounded_in_core_witness :
    (([none, some ((1 : ℚ)/50)] : List (Option ℚ)).filterMap id ≠ [])
    ∧ ((calculateMetrics [none, some ((1 : ℚ)/50)] [none, some 1020] 1000).total_return
        = (total_return_raw [none, some 1020] 1000).map (fun x => round2Q (x * 100))
      ∧ (calculateMetrics [none, some ((1 : ℚ)/50)] [none, some 1020] 1000).max_drawdown
        = (max_drawdown_raw [none, some 1020]).map (fun x => round2Q (x * 100))
      ∧ (calculateMetrics [none, some ((1 : ℚ)/50)] [none, some 1020] 1000).win_rate
        = round2Q (win_rate_raw (([none, some ((1 : ℚ)/50)] : List (Option ℚ)).filterMap id) * 100)) :=
  ⟨by simp, metrics_rounded_in_core [none, some ((1 : ℚ)/50)] [none, some 1020] 1000 (by simp)⟩

/-- C10: for signal values in {-1, 0, 1} the derived positions stay in
    {-1, 0, 1}; wherever the signal is non-zero the position equals the
    signal; hence every trade-log row's `position` equals its `signal`. -/
theorem signal_position_invariant (signals : List Int)
    (hs : ∀ x ∈ signals, x = -1 ∨ x = 0 ∨ x = 1) :
    (∀ t, t < signals.length →
      ((positionsOf signals).getD t 0 = -1 ∨ (positionsOf signals).getD t 0 = 0
        ∨ (positionsOf signals).getD t 0 = 1)
      ∧ (idxI signals t ≠ 0 → (positionsOf signals).getD t 0 = idxI signals t))
    ∧ ∀ (close : List ℚ) (e : TradeEntry), e ∈ tradeLog close signals → e.position = e.signal := by
  constructor
  · intro t ht
    refine ⟨?_, positions_eq_signal_of_ne_zero signals t ht⟩
    rw [positionsOf_getD signals t ht, specLastNonZero]
    rcases getLastD_mem_or ((signals.take (t + 1)).filter (fun x => decide (x ≠ 0))) 0 with h | h
    · right; left; exact h
    · exact hs _ (List.take_subset _ _ (List.mem_of_mem_filter h))
  · intro close e he
    obtain ⟨t, htmem, rfl⟩ := List.mem_map.mp he
    have ht : t < signals.length := List.mem_range.mp (List.mem_of_mem_filter htmem)
    have hnz : idxI signals t ≠ 0 := by simpa using List.of_mem_filter htmem
    exact positions_eq_signal_of_ne_zero signals t ht hnz

/-- Witness for C10 at the signal sequence `[1, 0, -1]`. -/
theorem signal_position_invariant_witness :
    (∀ x ∈ ([1, 0, -1] : List Int), x = -1 ∨ x = 0 ∨ x = 1)
    ∧ ((∀ t, t < ([1, 0, -1] : List Int).length →
        ((positionsOf [1, 0, -1]).getD t 0 = -1 ∨ (positionsOf [1, 0, -1]).getD t 0 = 0
          ∨ (positionsOf [1, 0, -1]).getD t 0 = 1)
        ∧ (idxI [1, 0, -1] t ≠ 0 → (positionsOf [1, 0, -1]).getD t 0 = idxI [1, 0, -1] t))
      ∧ ∀ (close : List ℚ) (e : TradeEntry), e ∈ tradeLog close [1, 0, -1] →
          e.position = e.signal) :=
  ⟨by decide, signal_position_invariant [1, 0, -1] (by decide)⟩

end OpenAlpha

namespace OpenAlpha

lemma round2Q_zero : round2Q 0 = 0 := by
  norm_num [round2Q, roundHalfEvenQ]

lemma round2R_zero : round2R 0 = 0 := by
  norm_num [round2R, roundHalfEvenR]

lemma ffill_all_zero : ∀ (sigs : List Int), (∀ x ∈ sigs, x = 0) →
    ffill sigs 0 = sigs.map (fun _ => 0)
  | [], _ => rfl
  | a :: r, h => by
      have ha : a = 0 := h a (List.mem_cons_self a r)
      subst ha
      rw [ffill_cons, if_pos rfl, ffill_all_zero r (fun x hx => h x (List.mem_cons_of_mem _ hx))]
      rfl

lemma idxI_positionsOf_zero (sigs : List Int) (h : ∀ x ∈ sigs, x = 0) (t : Nat) :
    idxI (positionsOf sigs) t = 0 := by
  rw [positionsOf, ffill_all_zero sigs h, idxI, List.getD_eq_getElem?_getD, List.getElem?_map]
  cases sigs[t]? <;> rfl

lemma netReturns_all_zero (close : List ℚ) (sigs : List Int) (ps cm : ℚ)
    (h : ∀ x ∈ sigs, x = 0) :
    netReturns close sigs ps cm
      = (List.range close.length).map (fun t => if t = 0 then none else some 0) := by
  unfold netReturns
  refine List.map_congr_left (fun t _ => ?_)
  by_cases ht : t = 0
  · simp [ht]
  · simp only [ht, if_neg]
    rw [idxI_positionsOf_zero sigs h, idxI_positionsOf_zero sigs h]
    norm_num

lemma range_map_ifzero (n : Nat) :
    (List.range (n + 1)).map (fun t => if t = 0 then (none : Option ℚ) else some 0)
      = none :: List.replicate n (some 0) := by
  rw [List.range_succ_eq_map, List.map_cons, List.map_map]
  simp only [if_pos rfl]
  congr 1
  have : ((fun t => if t = 0 then (none : Option ℚ) else some 0) ∘ (· + 1))
      = fun _ => (some 0 : Option ℚ) := by
    funext t; simp
  rw [this, List.map_const', List.length_range]

lemma filterMap_id_replicate_some (m : Nat) (a : ℚ) :
    (List.replicate m (some a)).filterMap id = List.replicate m a := by
  induction m with
  | zero => rfl
  | succ k ih => rw [List.replicate_succ, List.replicate_succ, List.filterMap_cons]; simp [ih]

lemma cumprodAux_replicate_one (m : Nat) (a : ℚ) :
    cumprodAux (List.replicate m (some 1)) a = List.replicate m (some a) := by
  induction m generalizing a with
  | zero => rfl
  | succ k ih => rw [List.replicate_succ, List.replicate_succ, cumprodAux, mul_one, ih]

lemma equityCurve_none_replicate (m : Nat) (ic : ℚ) :
    equityCurve (none :: List.replicate m (some 0)) ic
      = none :: List.replicate m (some ic) := by
  unfold equityCurve
  rw [List.map_cons, List.map_replicate]
  simp only [Option.map_none', Option.map_some']
  norm_num
  rw [cumprodAux, cumprodAux_replicate_one, List.map_cons, List.map_replicate]
  simp

lemma getLastD_replicate (k : Nat) (a : Option ℚ) (d : Option ℚ) :
    (List.replicate (k + 1) a).getLastD d = a := by
  induction k generalizing d with
  | zero => rfl
  | succ j ih => rw [List.replicate_succ, List.getLastD_cons, ih]

lemma sampleVar_replicate_zero (m : Nat) (h : 2 ≤ m) :
    sampleVar (List.replicate m (0 : ℚ)) = some 0 := by
  rw [sampleVar, if_neg (by simp; omega)]
  simp [List.sum_replicate, List.map_replicate]

lemma expandingMax_replicate (m : Nat) (x : ℚ) :
    expandingMax (List.replicate m (some x)) (some x) = List.replicate m (some x) := by
  induction m with
  | zero => rfl
  | succ k ih => rw [List.replicate_succ, expandingMax]; simp [ih]

lemma nanMin_foldl_zero : ∀ (k : Nat),
    List.foldl (fun acc x =>
      match acc, x with
      | none, v => v
      | some a, none => some a
      | some a, some b => some (min a b)) (some (0 : ℚ)) (List.replicate k (some 0)) = some 0
  | 0 => rfl
  | k + 1 => by
      rw [List.replicate_succ, List.foldl_cons]
      simpa [min_self] using nanMin_foldl_zero k

lemma zipWith_replicate_self (f : Option ℚ → Option ℚ → Option ℚ) (m : Nat) (a b : Option ℚ) :
    List.zipWith f (List.replicate m a) (List.replicate m b) = List.replicate m (f a b) := by
  induction m with
  | zero => rfl
  | succ k ih => simp [List.replicate_succ, ih]

lemma max_drawdown_none_replicate (m : Nat) (ic : ℚ) :
    max_drawdown_raw (none :: List.replicate (m + 1) (some ic)) = some 0 := by
  have hexp : expandingMax (none :: List.replicate (m + 1) (some ic)) none
      = none :: List.replicate (m + 1) (some ic) := by
    rw [List.replicate_succ]
    show none :: expandingMax (some ic :: List.replicate m (some ic)) none
      = none :: some ic :: List.replicate m (some ic)
    show none :: some ic :: expandingMax (List.replicate m (some ic)) (some ic)
      = none :: some ic :: List.replicate m (some ic)
    rw [expandingMax_replicate]
  rw [max_drawdown_raw, drawdowns, hexp, List.replicate_succ]
  simp only [List.zipWith_cons_cons, zipWith_replicate_self]
  simp only [sub_self, zero_div]
  rw [nanMin]
  simp only [List.foldl_cons]
  exact nanMin_foldl_zero m

end OpenAlpha

namespace OpenAlpha

lemma annual_return_raw_zero (n : Nat) : annual_return_raw (some 0) n = some 0 := by
  rw [annual_return_raw]
  simp only [Option.some_bind]
  rw [powFloat, if_pos (by norm_num)]
  norm_num [Real.one_rpow]

lemma volatility_raw_replicate_zero (m : Nat) (h : 2 ≤ m) :
    volatility_raw (List.replicate m 0) = some 0 := by
  rw [volatility_raw, sampleVar_replicate_zero m h]
  simp

lemma filter_replicate_zero (p : ℚ → Bool) (hp : ¬ p 0 = true) (m : Nat) :
    (List.replicate m (0 : ℚ)).filter p = [] := by
  induction m with
  | zero => rfl
  | succ k ih => rw [List.replicate_succ, List.filter_cons_of_neg hp, ih]

lemma num_trades_of_replicate_zero (m : Nat) :
    num_trades_of (List.replicate m (0 : ℚ)) = 0 := by
  rw [num_trades_of, filter_replicate_zero _ (by simp)]
  rfl

lemma win_rate_raw_replicate_zero (m : Nat) :
    win_rate_raw (List.replicate m (0 : ℚ)) = 0 := by
  rw [win_rate_raw]
  simp [num_trades_of_replicate_zero]

end OpenAlpha

namespace OpenAlpha

/-- C7 (counterexample): an all-zero signal sequence on a history of
    length 2 (momentum with its default 14-day lookback emits no signal)
    does not yield an all-zero metrics record: the volatility metric is
    NaN, because the sample standard deviation of a single return
    observation is NaN. -/
theorem degenerate_volatility_not_zero :
    (∀ x ∈ generate_signals (Strategy.momentum 14 (1/50)) [100, 102], x = 0)
    ∧ (calculateMetrics
        (netReturns [100, 102] (generate_signals (Strategy.momentum 14 (1/50)) [100, 102]) 1 (1/1000))
        (equityCurve
          (netReturns [100, 102] (generate_signals (Strategy.momentum 14 (1/50)) [100, 102]) 1 (1/1000))
          1000)
        1000).volatility ≠ some 0 := by
  have hsig : generate_signals (Strategy.momentum 14 (1/50)) [100, 102] = [0, 0] := by
    norm_num [generate_signals, momentumSignals, List.range_succ]
  rw [hsig]
  have hnet : netReturns [100, 102] [0, 0] 1 (1/1000) = [none, some 0] := by
    norm_num [netReturns, positionsOf, ffill, idx, idxI, List.range_succ]
  refine ⟨by decide, ?_⟩
  rw [hnet]
  simp only [calculateMetrics]
  rw [if_neg (by simp)]
  simp [volatility_raw, sampleVar]

end OpenAlpha

namespace OpenAlpha

/-- C7 (amended): a history of length 1 yields the all-zero metrics record
    (the cleaned return series is empty), without raising an error.  An
    all-zero signal sequence yields `numTrades = 0` and all metrics equal
    to 0 as well, except on a history of exactly 2 rows, where the single
    return observation makes the volatility metric NaN rather than 0. -/
theorem degenerate_inputs_metrics :
    (∀ (close : List ℚ) (sigs : List Int) (ps cm ic : ℚ), close.length = 1 →
      calculateMetrics (netReturns close sigs ps cm)
        (equityCurve (netReturns close sigs ps cm) ic) ic = zeroMetrics)
    ∧ (∀ (close : List ℚ) (sigs : List Int) (ps cm ic : ℚ), 0 < ic →
        (∀ x ∈ sigs, x = 0) → 2 ≤ close.length →
        (calculateMetrics (netReturns close sigs ps cm)
            (equityCurve (netReturns close sigs ps cm) ic) ic).total_return = some 0
        ∧ (calculateMetrics (netReturns close sigs ps cm)
            (equityCurve (netReturns close sigs ps cm) ic) ic).annual_return = some 0
        ∧ (calculateMetrics (netReturns close sigs ps cm)
            (equityCurve (netReturns close sigs ps cm) ic) ic).volatility
          = (if close.length = 2 then none else some 0)
        ∧ (calculateMetrics (netReturns close sigs ps cm)
            (equityCurve (netReturns close sigs ps cm) ic) ic).sharpe = some 0
        ∧ (calculateMetrics (netReturns close sigs ps cm)
            (equityCurve (netReturns close sigs ps cm) ic) ic).max_drawdown = some 0
        ∧ (calculateMetrics (netReturns close sigs ps cm)
            (equityCurve (netReturns close sigs ps cm) ic) ic).win_rate = 0
        ∧ (calculateMetrics (netReturns close sigs ps cm)
            (equityCurve (netReturns close sigs ps cm) ic) ic).num_trades = 0) := by
  constructor
  · intro close sigs ps cm ic h1
    obtain ⟨c, rfl⟩ := List.length_eq_one.mp h1
    have hnet : netReturns [c] sigs ps cm = [none] := by
      simp [netReturns, List.range_succ]
    rw [hnet]
    simp only [calculateMetrics]
    rw [if_pos (by simp)]
  · intro close sigs ps cm ic hic hz hlen
    obtain ⟨m, hm⟩ : ∃ m, close.length = m + 2 := ⟨close.length - 2, by omega⟩
    have hnet : netReturns close sigs ps cm = none :: List.replicate (m + 1) (some 0) := by
      rw [netReturns_all_zero close sigs ps cm hz, hm]
      exact range_map_ifzero (m + 1)
    have heq : equityCurve (netReturns close sigs ps cm) ic
        = none :: List.replicate (m + 1) (some ic) := by
      rw [hnet]; exact equityCurve_none_replicate (m + 1) ic
    have hrc : (netReturns close sigs ps cm).filterMap id = List.replicate (m + 1) 0 := by
      rw [hnet, List.filterMap_cons]
      simp [filterMap_id_replicate_some]
    have hne : (netReturns close sigs ps cm).filterMap id ≠ [] := by
      rw [hrc]; simp
    have htot : total_return_raw (equityCurve (netReturns close sigs ps cm) ic) ic = some 0 := by
      rw [heq, total_return_raw, List.getLastD_cons, getLastD_replicate]
      simp [div_self (ne_of_gt hic)]
    have hvol : volatility_raw ((netReturns close sigs ps cm).filterMap id)
        = (if close.length = 2 then none else some 0) := by
      rw [hrc]
      by_cases h2 : close.length = 2
      · have hm0 : m = 0 := by omega
        subst hm0
        rw [if_pos h2, volatility_raw, sampleVar, if_pos (by simp)]
        rfl
      · rw [if_neg h2]
        exact volatility_raw_replicate_zero (m + 1) (by omega)
    have hann : annual_return_raw
        (total_return_raw (equityCurve (netReturns close sigs ps cm) ic) ic)
        ((netReturns close sigs ps cm).filterMap id).length = some 0 := by
      rw [htot]; exact annual_return_raw_zero _
    have hdd : max_drawdown_raw (equityCurve (netReturns close sigs ps cm) ic) = some 0 := by
      rw [heq]; exact max_drawdown_none_replicate m ic
    refine ⟨?_, ?_, ?_, ?_, ?_, ?_, ?_⟩
    · simp only [calculateMetrics]; rw [if_neg hne]
      rw [show (Metrics.total_return
        { total_return := (total_return_raw (equityCurve (netReturns close sigs ps cm) ic) ic).map
            (fun x => round2Q (x * 100)), annual_return := _, volatility := _, sharpe := _,
          max_drawdown := _, win_rate := _, num_trades := _ }) = _ from rfl]
      rw [htot]
      simp [round2Q_zero]
    · simp only [calculateMetrics]; rw [if_neg hne]
      show (annual_return_raw _ _).map (fun x => round2R (x * 100)) = some 0
      rw [hann]
      simp [round2R_zero]
    · simp only [calculateMetrics]; rw [if_neg hne]
      show (volatility_raw _).map (fun x => round2R (x * 100)) = _
      rw [hvol]
      by_cases h2 : close.length = 2
      · rw [if_pos h2]; rfl
      · rw [if_neg h2]
        simp [round2R_zero]
    · simp only [calculateMetrics]; rw [if_neg hne]
      show (sharpe_raw (annual_return_raw _ _) (volatility_raw _)).map round2R = some 0
      rw [hvol]
      by_cases h2 : close.length = 2
      · rw [if_pos h2]
        simp [sharpe_raw, round2R_zero]
      · rw [if_neg h2]
        simp [sharpe_raw, round2R_zero]
    · simp only [calculateMetrics]; rw [if_neg hne]
      show (max_drawdown_raw _).map (fun x => round2Q (x * 100)) = some 0
      rw [hdd]
      simp [round2Q_zero]
    · simp only [calculateMetrics]; rw [if_neg hne]
      show round2Q (win_rate_raw _ * 100) = 0
      rw [hrc, win_rate_raw_replicate_zero]
      simpa using round2Q_zero
    · simp only [calculateMetrics]; rw [if_neg hne]
      show num_trades_of _ = 0
      rw [hrc]
      exact num_trades_of_replicate_zero _

end OpenAlpha

namespace OpenAlpha

/-- Witness for C7's amended statement: a length-1 history yields the
    all-zero record. -/
theorem degenerate_inputs_metrics_witness :
    ([100] : List ℚ).length = 1 ∧
    calculateMetrics (netReturns [100] [0] 1 (1/1000))
      (equityCurve (netReturns [100] [0] 1 (1/1000)) 1000) 1000 = zeroMetrics :=
  ⟨rfl, degenerate_inputs_metrics.1 [100] [0] 1 (1/1000) 1000 rfl⟩

/-- C8 (counterexample): the metrics record can contain an undefined
    (NaN) value: on the two-day history `[100, 102]` under buy-and-hold
    there is exactly one valid return observation, its sample standard
    deviation is NaN, and the returned volatility metric is NaN. -/
theorem metrics_volatility_nan_counterexample :
    (calculateMetrics
      (netReturns [100, 102] (generate_signals Strategy.buy_hold [100, 102]) 1 (1/1000))
      (equityCurve
        (netReturns [100, 102] (generate_signals Strategy.buy_hold [100, 102]) 1 (1/1000)) 1000)
      1000).volatility = none := by
  have hnet : netReturns [100, 102] (generate_signals Strategy.buy_hold [100, 102]) 1 (1/1000)
      = [none, some (1/50)] := by
    norm_num [netReturns, generate_signals, buyHoldSignals, positionsOf, ffill, idx, idxI,
      List.range_succ]
  rw [hnet]
  simp only [calculateMetrics]
  rw [if_neg (by simp)]
  simp [volatility_raw, sampleVar]

/-- C8 (amended): the sharpe ratio equals `annualReturn / volatility` when
    volatility is defined and positive, and is 0 when volatility is 0,
    non-positive, or NaN; but the guard does not make every metric
    defined: the volatility metric itself is NaN exactly when the cleaned
    return series has exactly one observation. -/
theorem sharpe_guard_and_volatility_nan (returns equity : List (Option ℚ)) (ic : ℚ) :
    ((calculateMetrics returns equity ic).volatility = none
      ↔ (returns.filterMap id).length = 1)
    ∧ (∀ (a : Option ℝ) (v : ℝ),
        sharpe_raw a (some v) = if 0 < v then a.map (fun x => x / v) else some 0)
    ∧ (∀ a : Option ℝ, sharpe_raw a none = some 0) := by
  refine ⟨?_, fun a v => rfl, fun a => rfl⟩
  by_cases h : returns.filterMap id = []
  · simp only [calculateMetrics]
    rw [if_pos h, h]
    simp [zeroMetrics]
  · simp only [calculateMetrics]
    rw [if_neg h]
    show (volatility_raw (returns.filterMap id)).map (fun x => round2R (x * 100)) = none ↔ _
    have hlen : (returns.filterMap id).length ≠ 0 := by
      intro h0
      exact h (List.length_eq_zero.mp h0)
    rw [Option.map_eq_none', volatility_raw, Option.map_eq_none', sampleVar]
    by_cases hc : (returns.filterMap id).length ≤ 1
    · rw [if_pos hc]
      have h1 : (returns.filterMap id).length = 1 := by omega
      simp [h1]
    · rw [if_neg hc]
      constructor
      · intro hx
        exact absurd hx (by simp)
      · intro h1
        exact absurd h1 (by omega)

end OpenAlpha

namespace OpenAlpha

lemma leDefined_cumprodAux :
    ∀ (l2 l1 : List (Option ℚ)), List.Forall₂ leDefined l2 l1 →
      ∀ (a2 a1 : ℚ), 0 ≤ a2 → a2 ≤ a1 →
      List.Forall₂ leDefined (cumprodAux l2 a2) (cumprodAux l1 a1) := by
  intro l2 l1 h
  induction h with
  | nil => intro a2 a1 _ _; exact List.Forall₂.nil
  | @cons b2 b1 r2 r1 hb hr ih =>
    intro a2 a1 ha2 ha12
    rcases hb with ⟨hn2, hn1⟩ | ⟨x, y, hx, hy, hx0, hxy⟩
    · subst hn2; subst hn1
      exact List.Forall₂.cons (Or.inl ⟨rfl, rfl⟩) (ih a2 a1 ha2 ha12)
    · subst hx; subst hy
      have h0 : (0 : ℚ) ≤ a2 * x := mul_nonneg ha2 hx0
      have hle : a2 * x ≤ a1 * y :=
        le_trans (mul_le_mul_of_nonneg_right ha12 hx0)
          (mul_le_mul_of_nonneg_left hxy (le_trans ha2 ha12))
      exact List.Forall₂.cons (Or.inr ⟨a2 * x, a1 * y, rfl, rfl, h0, hle⟩)
        (ih (a2 * x) (a1 * y) h0 hle)

lemma leDefined_map_mul :
    ∀ (l2 l1 : List (Option ℚ)), List.Forall₂ leDefined l2 l1 → ∀ (ic : ℚ), 0 ≤ ic →
      List.Forall₂ leDefined (l2.map (Option.map (fun x => x * ic)))
        (l1.map (Option.map (fun x => x * ic))) := by
  intro l2 l1 h
  induction h with
  | nil => intro ic _; exact List.Forall₂.nil
  | @cons b2 b1 r2 r1 hb hr ih =>
    intro ic hic
    refine List.Forall₂.cons ?_ (ih ic hic)
    rcases hb with ⟨hn2, hn1⟩ | ⟨x, y, hx, hy, hx0, hxy⟩
    · subst hn2; subst hn1; exact Or.inl ⟨rfl, rfl⟩
    · subst hx; subst hy
      exact Or.inr ⟨x * ic, y * ic, rfl, rfl, mul_nonneg hx0 hic,
        mul_le_mul_of_nonneg_right hxy hic⟩

lemma leDefined_getLastD :
    ∀ (l2 l1 : List (Option ℚ)), List.Forall₂ leDefined l2 l1 →
      ∀ (d2 d1 : Option ℚ), leDefined d2 d1 →
      leDefined (l2.getLastD d2) (l1.getLastD d1) := by
  intro l2 l1 h
  induction h with
  | nil => intro d2 d1 hd; exact hd
  | @cons b2 b1 r2 r1 hb hr ih =>
    intro d2 d1 _
    rw [List.getLastD_cons, List.getLastD_cons]
    exact ih b2 b1 hb

end OpenAlpha

namespace OpenAlpha

/-- C6 (counterexample): increasing the commission rate can increase the
    final equity.  With closes `[100, 400, 1600]` and signals `[-1, 0, 1]`
    (short, hold, reverse long), the compounding factor at date 1 is
    negative (a short against a 300% rally), so the extra commission at
    date 2 multiplies a negative equity and raises the final value: final
    equity 4000 at rate 0 but 4004 at rate 0.001. -/
theorem commission_can_increase_final_equity :
    (equityCurve (netReturns [100, 400, 1600] [-1, 0, 1] 1 0) 1000).getLastD none = some 4000
    ∧ (equityCurve (netReturns [100, 400, 1600] [-1, 0, 1] 1 (1/1000)) 1000).getLastD none
        = some 4004
    ∧ ((0 : ℚ) ≤ 1/1000)
    ∧ ¬ ((4004 : ℚ) ≤ 4000) := by
  refine ⟨?_, ?_, by norm_num, by norm_num⟩ <;>
    norm_num [equityCurve, netReturns, positionsOf, ffill, cumprodAux, idx, idxI,
      List.range_succ]

/-- C6 (amended): commission monotonicity holds whenever no compounding
    factor goes negative: if every net return at the higher rate is at
    least -1 (and the initial capital is non-negative), then the final
    equity at the higher commission rate is at most the final equity at
    the lower rate.  Without that proviso the property fails (see the
    counterexample). -/
theorem commission_monotone_final_equity (close : List ℚ) (sigs : List Int)
    (ps ic cLo cHi : ℚ) (hc : cLo ≤ cHi) (hic : 0 ≤ ic)
    (hge : ∀ x ∈ netReturns close sigs ps cHi, ∀ v, x = some v → -1 ≤ v) :
    ∀ yHi yLo,
      (equityCurve (netReturns close sigs ps cHi) ic).getLastD none = some yHi →
      (equityCurve (netReturns close sigs ps cLo) ic).getLastD none = some yLo →
      yHi ≤ yLo := by
  simp only [netReturns] at hge ⊢
  have hf2 : List.Forall₂ leDefined
      (((List.range close.length).map (fun t =>
        if t = 0 then none
        else some ((idxI (positionsOf sigs) (t - 1) : ℚ)
            * (idx close t / idx close (t - 1) - 1) * ps
          - |(idxI (positionsOf sigs) t : ℚ) - (idxI (positionsOf sigs) (t - 1) : ℚ)|
            * cHi))).map (Option.map (fun x => 1 + x)))
      (((List.range close.length).map (fun t =>
        if t = 0 then none
        else some ((idxI (positionsOf sigs) (t - 1) : ℚ)
            * (idx close t / idx close (t - 1) - 1) * ps
          - |(idxI (positionsOf sigs) t : ℚ) - (idxI (positionsOf sigs) (t - 1) : ℚ)|
            * cLo))).map (Option.map (fun x => 1 + x))) := by
    rw [List.map_map, List.map_map, List.forall₂_map_left_iff, List.forall₂_map_right_iff,
      List.forall₂_same]
    intro j hj
    by_cases hj0 : j = 0
    · subst hj0
      exact Or.inl ⟨rfl, rfl⟩
    · simp only [Function.comp_apply, if_neg hj0, Option.map_some']
      right
      refine ⟨_, _, rfl, rfl, ?_, ?_⟩
      · have hmem := List.mem_map_of_mem (fun t =>
          if t = 0 then none
          else some ((idxI (positionsOf sigs) (t - 1) : ℚ)
              * (idx close t / idx close (t - 1) - 1) * ps
            - |(idxI (positionsOf sigs) t : ℚ) - (idxI (positionsOf sigs) (t - 1) : ℚ)|
              * cHi)) hj
        have hv := hge _ hmem
          ((idxI (positionsOf sigs) (j - 1) : ℚ) * (idx close j / idx close (j - 1) - 1) * ps
            - |(idxI (positionsOf sigs) j : ℚ) - (idxI (positionsOf sigs) (j - 1) : ℚ)| * cHi)
          (by simp [hj0])
        linarith
      · have habs : |(idxI (positionsOf sigs) j : ℚ) - (idxI (positionsOf sigs) (j - 1) : ℚ)|
            * cLo
            ≤ |(idxI (positionsOf sigs) j : ℚ) - (idxI (positionsOf sigs) (j - 1) : ℚ)|
            * cHi :=
          mul_le_mul_of_nonneg_left hc (abs_nonneg _)
        linarith
  have hcp := leDefined_cumprodAux _ _ hf2 1 1 (by norm_num) (le_refl 1)
  have hmap := leDefined_map_mul _ _ hcp ic hic
  have hlast := leDefined_getLastD _ _ hmap none none (Or.inl ⟨rfl, rfl⟩)
  intro yHi yLo hHi hLo
  rw [equityCurve] at hHi hLo
  rcases hlast with ⟨h1, _⟩ | ⟨x, y, hx, hy, _, hxy⟩
  · rw [h1] at hHi
    exact absurd hHi (by simp)
  · rw [hx] at hHi
    rw [hy] at hLo
    rw [Option.some.inj hHi] at hxy
    rw [Option.some.inj hLo] at hxy
    exact hxy

end OpenAlpha

namespace OpenAlpha

/-- Witness for C6's amended statement on a three-day long-only backtest
    (rates 0 and 0.01, final equity 1010 at both rates). -/
theorem commission_monotone_final_equity_witness :
    ((0 : ℚ) ≤ 1/100) ∧ ((0 : ℚ) ≤ 1000) ∧ ((1010 : ℚ) ≤ 1010) :=
  ⟨by norm_num, by norm_num,
    commission_monotone_final_equity [100, 102, 101] [1, 0, 0] 1 1000 0 (1/100)
      (by norm_num) (by norm_num)
      (by
        have h : netReturns [100, 102, 101] [1, 0, 0] 1 (1/100)
            = [none, some (1/50), some (-1/102)] := by
          norm_num [netReturns, positionsOf, ffill, idx, idxI, List.range_succ]
        rw [h]
        intro x hx v hv
        fin_cases hx
        · simp at hv
        · rw [← Option.some.inj hv]; norm_num
        · rw [← Option.some.inj hv]; norm_num)
      1010 1010
      (by norm_num [equityCurve, netReturns, positionsOf, ffill, cumprodAux, idx, idxI,
        List.range_succ, List.getLastD_cons])
      (by norm_num [equityCurve, netReturns, positionsOf, ffill, cumprodAux, idx, idxI,
        List.range_succ, List.getLastD_cons])⟩

end OpenAlpha

namespace OpenAlpha

lemma getD_eq_of_take_eq {α : Type} (l1 l2 : List α) (t j : Nat) (d : α)
    (h : l1.take t = l2.take t) (hj : j < t) : l1.getD j d = l2.getD j d := by
  rw [List.getD_eq_getElem?_getD, List.getD_eq_getElem?_getD]
  have h1 : l1[j]? = (l1.take t)[j]? := by rw [List.getElem?_take, if_pos hj]
  have h2 : l2[j]? = (l2.take t)[j]? := by rw [List.getElem?_take, if_pos hj]
  rw [h1, h2, h]

lemma min_eq_of_take_eq {α : Type} (l1 l2 : List α) (t : Nat)
    (h : l1.take t = l2.take t) : min t l1.length = min t l2.length := by
  have := congrArg List.length h
  rwa [List.length_take, List.length_take] at this

lemma take_map_range {α : Type} (f g : Nat → α) (n1 n2 t : Nat)
    (hmin : min t n1 = min t n2) (hf : ∀ j, j < t → j < n1 → f j = g j) :
    ((List.range n1).map f).take t = ((List.range n2).map g).take t := by
  rw [← List.map_take, ← List.map_take, List.take_range, List.take_range, ← hmin]
  refine List.map_congr_left (fun j hj => ?_)
  rw [List.mem_range] at hj
  exact hf j (lt_of_lt_of_le hj (min_le_left t n1)) (lt_of_lt_of_le hj (min_le_right t n1))

lemma ffill_take_eq : ∀ (s1 s2 : List Int) (c : Int) (t : Nat), s1.take t = s2.take t →
    (ffill s1 c).take t = (ffill s2 c).take t
  | _, _, _, 0, _ => by simp
  | [], s2, c, t + 1, h => by
      have : s2 = [] := by
        rcases List.take_eq_nil_iff.mp h.symm with h0 | h0
        · exact absurd h0 (by omega)
        · exact h0
      subst this
      rfl
  | a :: r1, [], c, t + 1, h => by
      exact absurd (List.take_eq_nil_iff.mp h) (by simp)
  | a :: r1, b :: r2, c, t + 1, h => by
      rw [List.take_succ_cons, List.take_succ_cons] at h
      obtain ⟨rfl, htail⟩ : a = b ∧ r1.take t = r2.take t :=
        ⟨List.head_eq_of_cons_eq h, List.tail_eq_of_cons_eq h⟩
      rw [ffill_cons, ffill_cons, List.take_succ_cons, List.take_succ_cons,
        ffill_take_eq r1 r2 _ t htail]

lemma rollingMean_take_eq (w : Nat) (c1 c2 : List ℚ) (t j : Nat)
    (h : c1.take t = c2.take t) (hj : j < t) :
    rollingMean w c1 j = rollingMean w c2 j := by
  rw [rollingMean, rollingMean]
  by_cases hg : j + 1 < w
  · rw [if_pos hg, if_pos hg]
  · rw [if_neg hg, if_neg hg]
    have hsum : ((List.range w).map (fun i => idx c1 (j - i))).sum
        = ((List.range w).map (fun i => idx c2 (j - i))).sum := by
      refine congrArg List.sum (List.map_congr_left (fun i _ => ?_))
      exact getD_eq_of_take_eq c1 c2 t (j - i) 0 h (by omega)
    rw [hsum]

lemma generate_signals_take (strat : Strategy) (c1 c2 : List ℚ) (t : Nat)
    (h : c1.take t = c2.take t) :
    (generate_signals strat c1).take t = (generate_signals strat c2).take t := by
  have hmin := min_eq_of_take_eq c1 c2 t h
  cases strat with
  | buy_hold =>
    exact take_map_range _ _ _ _ t hmin (fun j _ _ => rfl)
  | momentum lb th =>
    refine take_map_range _ _ _ _ t hmin (fun j hjt _ => ?_)
    by_cases hlb : j < lb
    · rw [if_pos hlb, if_pos hlb]
    · rw [if_neg hlb, if_neg hlb]
      rw [show idx c1 j = idx c2 j from getD_eq_of_take_eq c1 c2 t j 0 h hjt,
        show idx c1 (j - lb) = idx c2 (j - lb) from
          getD_eq_of_take_eq c1 c2 t (j - lb) 0 h (by omega)]
  | sma fw sw =>
    refine take_map_range _ _ _ _ t hmin (fun j hjt _ => ?_)
    by_cases hj0 : j = 0
    · simp only [if_pos hj0]
      rw [rollingMean_take_eq fw c1 c2 t j h hjt, rollingMean_take_eq sw c1 c2 t j h hjt]
    · simp only [if_neg hj0]
      rw [rollingMean_take_eq fw c1 c2 t j h hjt, rollingMean_take_eq sw c1 c2 t j h hjt,
        rollingMean_take_eq fw c1 c2 t (j - 1) h (by omega),
        rollingMean_take_eq sw c1 c2 t (j - 1) h (by omega)]

lemma netReturns_take_eq (c1 c2 : List ℚ) (s1 s2 : List Int) (ps cm : ℚ) (t : Nat)
    (hc : c1.take t = c2.take t) (hs : s1.take t = s2.take t) :
    (netReturns c1 s1 ps cm).take t = (netReturns c2 s2 ps cm).take t := by
  have hpos : (positionsOf s1).take t = (positionsOf s2).take t :=
    ffill_take_eq s1 s2 0 t hs
  simp only [netReturns]
  refine take_map_range _ _ _ _ t (min_eq_of_take_eq c1 c2 t hc) (fun j hjt _ => ?_)
  by_cases hj0 : j = 0
  · rw [if_pos hj0, if_pos hj0]
  · rw [if_neg hj0, if_neg hj0,
      show idxI (positionsOf s1) j = idxI (positionsOf s2) j from
        getD_eq_of_take_eq _ _ t j 0 hpos hjt,
      show idxI (positionsOf s1) (j - 1) = idxI (positionsOf s2) (j - 1) from
        getD_eq_of_take_eq _ _ t (j - 1) 0 hpos (by omega),
      show idx c1 j = idx c2 j from getD_eq_of_take_eq _ _ t j 0 hc hjt,
      show idx c1 (j - 1) = idx c2 (j - 1) from
        getD_eq_of_take_eq _ _ t (j - 1) 0 hc (by omega)]

end OpenAlpha

namespace OpenAlpha

/-- C2: no-lookahead.  For any two positive price histories that agree on
    all records strictly before date `t` (differing only at `t` or
    later), the backtest produces identical net returns at every date
    strictly before `t`, for each of the three shipped strategies (with
    valid rolling windows for the SMA variant). -/
theorem no_lookahead (strat : Strategy) (hv : stratValid strat) (c1 c2 : List ℚ)
    (hpos1 : ∀ x ∈ c1, 0 < x) (hpos2 : ∀ x ∈ c2, 0 < x)
    (t : Nat) (hpre : c1.take t = c2.take t) (ps cm : ℚ) :
    (netReturns c1 (generate_signals strat c1) ps cm).take t
      = (netReturns c2 (generate_signals strat c2) ps cm).take t :=
  netReturns_take_eq c1 c2 (generate_signals strat c1) (generate_signals strat c2) ps cm t
    hpre (generate_signals_take strat c1 c2 t hpre)

/-- Witness for C2: two three-day histories differing only at date 2,
    under buy-and-hold. -/
theorem no_lookahead_witness :
    stratValid Strategy.buy_hold
    ∧ (∀ x ∈ ([100, 200, 50] : List ℚ), 0 < x)
    ∧ (∀ x ∈ ([100, 200, 999] : List ℚ), 0 < x)
    ∧ ([100, 200, 50] : List ℚ).take 2 = ([100, 200, 999] : List ℚ).take 2
    ∧ (netReturns [100, 200, 50] (generate_signals Strategy.buy_hold [100, 200, 50])
        1 (1/1000)).take 2
      = (netReturns [100, 200, 999] (generate_signals Strategy.buy_hold [100, 200, 999])
        1 (1/1000)).take 2 :=
  ⟨trivial,
   by intro x hx; fin_cases hx <;> norm_num,
   by intro x hx; fin_cases hx <;> norm_num,
   rfl,
   no_lookahead Strategy.buy_hold trivial [100, 200, 50] [100, 200, 999]
     (by intro x hx; fin_cases hx <;> norm_num)
     (by intro x hx; fin_cases hx <;> norm_num)
     2 rfl 1 (1/1000)⟩

end OpenAlpha

namespace OpenAlpha

lemma dd_master : ∀ (e : List (Option ℚ)) (p : ℚ), 0 < p →
    (∀ x ∈ e, ∀ v, x = some v → 0 < v) →
    ∀ (m : ℚ), -1 < m → m ≤ 0 →
    ∀ d, List.foldl (fun acc x =>
        match acc, x with
        | none, v => v
        | some a, none => some a
        | some a, some b => some (min a b)) (some m)
      (List.zipWith (fun e p =>
        match e, p with
        | some ev, some pv => some ((ev - pv) / pv)
        | _, _ => none) e (expandingMax e (some p))) = some d →
      ((-1 < d ∧ d ≤ 0) ∧ (d = 0 ↔ m = 0 ∧ List.Chain (· ≤ ·) p (e.filterMap id)))
  | [], p, hp, hpos, m, hm1, hm2, d, hd => by
      simp only [expandingMax, List.zipWith_nil_right, List.foldl_nil] at hd
      obtain rfl : m = d := Option.some.inj hd
      refine ⟨⟨hm1, hm2⟩, ?_⟩
      simp [List.Chain.nil]
  | none :: r, p, hp, hpos, m, hm1, hm2, d, hd => by
      have hd' : List.foldl (fun acc x =>
          match acc, x with
          | none, v => v
          | some a, none => some a
          | some a, some b => some (min a b)) (some m)
        (List.zipWith (fun e p =>
          match e, p with
          | some ev, some pv => some ((ev - pv) / pv)
          | _, _ => none) r (expandingMax r (some p))) = some d := hd
      have := dd_master r p hp
        (fun y hy v hv => hpos y (List.mem_cons_of_mem _ hy) v hv) m hm1 hm2 d hd'
      simpa using this
  | some x :: r, p, hp, hpos, m, hm1, hm2, d, hd => by
      have hx : 0 < x := hpos (some x) (List.mem_cons_self _ _) x rfl
      have hq : 0 < max p x := lt_of_lt_of_le hp (le_max_left p x)
      have hxq : x ≤ max p x := le_max_right p x
      have hdd0a : -1 < (x - max p x) / max p x := by
        rw [sub_div, div_self (ne_of_gt hq)]
        have : 0 < x / max p x := div_pos hx hq
        linarith
      have hdd0b : (x - max p x) / max p x ≤ 0 :=
        div_nonpos_of_nonpos_of_nonneg (by linarith) (le_of_lt hq)
      have hd' : List.foldl (fun acc x =>
          match acc, x with
          | none, v => v
          | some a, none => some a
          | some a, some b => some (min a b))
          (some (min m ((x - max p x) / max p x)))
        (List.zipWith (fun e p =>
          match e, p with
          | some ev, some pv => some ((ev - pv) / pv)
          | _, _ => none) r (expandingMax r (some (max p x)))) = some d := hd
      have hih := dd_master r (max p x) hq
        (fun y hy v hv => hpos y (List.mem_cons_of_mem _ hy) v hv)
        (min m ((x - max p x) / max p x)) (lt_min hm1 hdd0a)
        (le_trans (min_le_left _ _) hm2) d hd'
      refine ⟨hih.1, ?_⟩
      have hminiff : min m ((x - max p x) / max p x) = 0
          ↔ m = 0 ∧ (x - max p x) / max p x = 0 := by
        constructor
        · intro h0
          constructor
          · refine le_antisymm hm2 ?_
            rw [← h0]
            exact min_le_left _ _
          · refine le_antisymm hdd0b ?_
            rw [← h0]
            exact min_le_right _ _
        · rintro ⟨h1, h2⟩
          rw [h1, h2, min_self]
      have hdd0iff : (x - max p x) / max p x = 0 ↔ p ≤ x := by
        rw [div_eq_zero_iff]
        constructor
        · rintro (h | h)
          · exact max_eq_right_iff.mp (sub_eq_zero.mp h).symm
          · exact absurd h (ne_of_gt hq)
        · intro hpx
          left
          rw [max_eq_right hpx, sub_self]
      rw [hih.2, hminiff, hdd0iff]
      simp only [List.filterMap_cons, id]
      rw [List.chain_cons]
      constructor
      · rintro ⟨⟨h1, hpx⟩, h3⟩
        rw [max_eq_right hpx] at h3
        exact ⟨h1, hpx, h3⟩
      · rintro ⟨h1, hpx, h3⟩
        rw [max_eq_right hpx]
        exact ⟨⟨h1, hpx⟩, h3⟩

end OpenAlpha

namespace OpenAlpha

/-- C5 (counterexample): a backtest can produce a maxDrawdown (before
    percentage scaling) strictly below -1.  With closes `[100, 50, 200]`
    under the momentum strategy (lookback 1, threshold 0.02), the short
    opened at date 1 loses 300% on the quadrupling at date 2, equity
    turns negative, and the raw max drawdown is about -3.002. -/
theorem max_drawdown_below_neg_one :
    max_drawdown_raw (equityCurve (netReturns [100, 50, 200]
        (generate_signals (Strategy.momentum 1 (1/50)) [100, 50, 200]) 1 (1/1000)) 1000)
      = some (-55537/18500)
    ∧ ((-55537 : ℚ)/18500 < -1) := by
  constructor
  · have hsig : generate_signals (Strategy.momentum 1 (1/50)) [100, 50, 200] = [0, -1, 1] := by
      norm_num [generate_signals, momentumSignals, idx, List.range_succ]
    rw [hsig]
    have heq : equityCurve (netReturns [100, 50, 200] [0, -1, 1] 1 (1/1000)) 1000
        = [none, some 999, some (-999999/500)] := by
      norm_num [equityCurve, netReturns, positionsOf, ffill, cumprodAux, idx, idxI,
        List.range_succ]
    rw [heq]
    show nanMin [none, some ((999 - 999)/999),
      some ((-999999/500 - max 999 (-999999/500)) / max 999 (-999999/500))] = _
    have h1 : max (999 : ℚ) (-999999/500) = 999 := by
      rw [max_eq_left]; norm_num
    rw [nanMin, h1]
    norm_num
  · norm_num

/-- C5 (amended): when every defined value of the equity curve is
    positive, the raw max drawdown lies in [-1, 0] (indeed strictly above
    -1) and is 0 exactly when the defined equity values are
    non-decreasing.  When equity is driven non-positive (net return
    below -1, as in the counterexample) the -1 bound fails. -/
theorem max_drawdown_bounds : ∀ (e : List (Option ℚ)),
    (∀ x ∈ e, ∀ v, x = some v → 0 < v) →
    ∀ d, max_drawdown_raw e = some d →
      ((-1 < d ∧ d ≤ 0) ∧ (d = 0 ↔ (e.filterMap id).Pairwise (· ≤ ·)))
  | [], _, d, hd => by
      simp [max_drawdown_raw, drawdowns, nanMin] at hd
  | none :: r, hpos, d, hd => by
      have hd' : max_drawdown_raw r = some d := hd
      have := max_drawdown_bounds r
        (fun y hy v hv => hpos y (List.mem_cons_of_mem _ hy) v hv) d hd'
      simpa using this
  | some x :: r, hpos, d, hd => by
      have hx : 0 < x := hpos (some x) (List.mem_cons_self _ _) x rfl
      have hd' : List.foldl (fun acc x =>
          match acc, x with
          | none, v => v
          | some a, none => some a
          | some a, some b => some (min a b)) (some ((x - x) / x))
        (List.zipWith (fun e p =>
          match e, p with
          | some ev, some pv => some ((ev - pv) / pv)
          | _, _ => none) r (expandingMax r (some x))) = some d := hd
      rw [show (x - x) / x = 0 from by rw [sub_self, zero_div]] at hd'
      have hih := dd_master r x hx
        (fun y hy v hv => hpos y (List.mem_cons_of_mem _ hy) v hv)
        0 (by norm_num) (le_refl 0) d hd'
      refine ⟨hih.1, ?_⟩
      rw [hih.2]
      simp only [List.filterMap_cons, id, true_and]
      rw [← List.chain'_iff_pairwise]
      exact Iff.rfl

end OpenAlpha

namespace OpenAlpha

/-- Witness for C5's amended statement on the equity curve
    `[NaN, 10, 5]`: raw max drawdown -1/2, inside (-1, 0], and the curve
    is not non-decreasing. -/
theorem max_drawdown_bounds_witness :
    (∀ x ∈ ([none, some 10, some 5] : List (Option ℚ)), ∀ v, x = some v → 0 < v)
    ∧ max_drawdown_raw ([none, some 10, some 5] : List (Option ℚ)) = some (-1/2)
    ∧ (((-1 : ℚ) < -1/2 ∧ (-1 : ℚ)/2 ≤ 0)
        ∧ ((-1/2 : ℚ) = 0
          ↔ (([none, some 10, some 5] : List (Option ℚ)).filterMap id).Pairwise (· ≤ ·))) := by
  have hpos : ∀ x ∈ ([none, some 10, some 5] : List (Option ℚ)), ∀ v, x = some v → 0 < v := by
    intro x hx v hv
    fin_cases hx
    · simp at hv
    · rw [← Option.some.inj hv]; norm_num
    · rw [← Option.some.inj hv]; norm_num
  have hmdd : max_drawdown_raw ([none, some 10, some 5] : List (Option ℚ)) = some (-1/2) := by
    rw [max_drawdown_raw, drawdowns]
    show nanMin [none, some (((10 : ℚ) - 10)/10),
      some (((5 : ℚ) - max 10 5) / max 10 5)] = some (-1/2)
    rw [show max (10 : ℚ) 5 = 10 from max_eq_left (by norm_num), nanMin]
    norm_num
  exact ⟨hpos, hmdd, max_drawdown_bounds [none, some 10, some 5] hpos (-1/2) hmdd⟩

end OpenAlpha
